import Mathlib

/-!
Verification of the reconciliation & sidecar-synchronization engine of the
Movie-NFO-Creator repository (src/script.py) against its natural-language
specification.

Text is modelled as `Line := List Char`; a file is modelled as the list of
its lines as produced by Python's `readlines` (with the terminal newline of
each line removed — the source only ever strips or re-adds those).  All
definitions are direct shallow embeddings of the Python functions of
src/script.py, keeping the source's names.  Where the source calls into a
library routine (regular expressions, `xml.etree.ElementTree`, `str` methods)
the embedding models that routine's behaviour on the inputs the program
feeds it; every such modelling choice is recorded in the doc comment of the
corresponding definition.
-/

/-- Text content of one line of a file (Python str, without trailing newline). -/
abbrev Line := List Char

/-- Convert a Lean string literal to the line representation. -/
def strL (s : String) : Line := s.data

/-- Whitespace test modelling Python's `str.strip()` character class
(ASCII whitespace; the source only ever meets spaces and newlines). -/
def pySpace (c : Char) : Bool :=
  c == ' ' || c == '\t' || c == '\n' || c == '\r' || c == '\x0b' || c == '\x0c'

/-- Model of Python `str.strip()`: remove leading and trailing whitespace.
The trailing side is removed first so that the result is literally a
`dropWhile` from the front, which the dead-branch argument for the
TMDb-URL regex inspects. -/
def pyStrip (cs : Line) : Line :=
  ((cs.reverse.dropWhile pySpace).reverse).dropWhile pySpace

/-- Model of Python `str.rstrip('\n')`: remove trailing newline characters. -/
def rstripNl (cs : Line) : Line :=
  (cs.reverse.dropWhile (· == '\n')).reverse

/-- Model of Python `str.casefold()` as a character-wise lowering; the
claims about the title relation only depend on it being a function applied
identically to both sides. -/
def casefoldL (cs : Line) : Line := cs.map Char.toLower

/-- Model of `str.replace(':', '-')` (single-character pattern, hence a map). -/
def colonRep (cs : Line) : Line := cs.map (fun c => if c == ':' then '-' else c)

/-- Helper of the model of `re.sub(r'\s\(.*?\)$', '', s)`: does a suffix
`inner` complete a match `\s\(inner` where `inner` ends in `)` at the end
of the string and `.*?` (which never crosses a newline) covers the rest? -/
def innerOk (rest : Line) : Bool :=
  rest.getLast? == some ')' && rest.dropLast.all (fun c => !(c == '\n'))

/-- Scanner of the model of `re.sub(r'\s\(.*?\)$', '', s)`: find the leftmost
position holding a whitespace character followed by `(` whose parenthesis
closes at the very end of the string with no newline inside; return the
prefix before the match (the substitution deletes the match), or `none`
when no position matches. -/
def subParen : Line → Option Line
  | [] => none
  | c :: rest =>
    match rest with
    | '(' :: inner =>
      if pySpace c && innerOk inner then some []
      else (subParen rest).map (c :: ·)
    | _ => (subParen rest).map (c :: ·)

/-- Model of `re.sub(r'\s\(.*?\)$', '', s)` from `are_roughly_equals`
(src/script.py:215-216).  Python's `$` matches at the end of the string or
just before one final newline, so a single trailing newline is peeled off,
the match (if any) must close at the end of the remaining text, and the
newline survives the substitution. -/
def stripTrailingParenthetical (cs : Line) : Line :=
  match cs.getLast? with
  | some '\n' =>
    match subParen cs.dropLast with
    | some r => r ++ ['\n']
    | none => cs
  | _ =>
    match subParen cs with
    | some r => r
    | none => cs

/-- Shallow embedding of `are_roughly_equals` (src/script.py:212-217):
replace every colon by a hyphen, strip one trailing parenthetical suffix,
then compare under casefold. -/
def are_roughly_equals (title_1 title_2 : Line) : Bool :=
  casefoldL (stripTrailingParenthetical (colonRep title_1))
    == casefoldL (stripTrailingParenthetical (colonRep title_2))

/-- One entry of the parsed letterboxd bulk export (`parse_letterboxd_csv`
keeps exactly the title and the year of each row, src/script.py:43-47). -/
structure LbMovie where
  title : Line
  year : Int
deriving DecidableEq

/-- Shallow embedding of `is_movie_in_letterboxd_list` (src/script.py:51-55).
The `year` argument is the optional release year computed by the caller
(`None` when the record has no release date); Python's `int == None`
comparison is `False`, modelled by the `none` branch. -/
def is_movie_in_letterboxd_list (letterboxd_data : List LbMovie)
    (title : Line) (year : Option Int) : Bool :=
  letterboxd_data.any fun m =>
    are_roughly_equals m.title title &&
      (match year with
       | some y => m.year == y
       | none => false)

/-- Shallow embedding of the watched-status aggregation of `__main__`
(src/script.py:524-526): letterboxd signal OR override-list membership. -/
def is_watched_aggregate (letterboxd_data : List LbMovie)
    (override_ids : List Line) (original_title : Line)
    (release_year : Option Int) (imdb_id : Line) : Bool :=
  is_movie_in_letterboxd_list letterboxd_data original_title release_year
    || override_ids.contains imdb_id

/-- Symmetry of boolean equality on lines. -/
theorem lineBeq_comm (x y : Line) : (x == y) = (y == x) := by
  cases h : x == y
  · cases h' : y == x
    · rfl
    · have hxy : y = x := eq_of_beq h'
      subst hxy
      rw [beq_self_eq_true] at h
      exact h.symm
  · have hxy : x = y := eq_of_beq h
    subst hxy
    exact (beq_self_eq_true x).symm

/-- C5: the roughly-equal title relation is reflexive and symmetric: for all
strings `a` and `b`, `are_roughly_equals a a` is true and
`are_roughly_equals a b` equals `are_roughly_equals b a`. -/
theorem are_roughly_equals_refl_symm (a b : Line) :
    are_roughly_equals a a = true ∧
      are_roughly_equals a b = are_roughly_equals b a := by
  constructor
  · simp [are_roughly_equals]
  · unfold are_roughly_equals
    exact lineBeq_comm ..

/-- C7: the aggregate watched status is true if and only if the bulk export
contains an entry whose title is roughly equal to the record's original
title and whose year equals the record's release year, or the record's
identity id is a member of the override set. -/
theorem is_watched_aggregate_iff (letterboxd_data : List LbMovie)
    (override_ids : List Line) (original_title : Line)
    (release_year : Option Int) (imdb_id : Line) :
    is_watched_aggregate letterboxd_data override_ids original_title
        release_year imdb_id = true ↔
      ((∃ m ∈ letterboxd_data,
          are_roughly_equals m.title original_title = true ∧
            some m.year = release_year) ∨
        imdb_id ∈ override_ids) := by
  unfold is_watched_aggregate is_movie_in_letterboxd_list
  simp only [Bool.or_eq_true, List.any_eq_true, Bool.and_eq_true,
    List.contains, List.elem_iff]
  constructor
  · rintro (⟨m, hm, ht, hy⟩ | hov)
    · refine Or.inl ⟨m, hm, ht, ?_⟩
      cases release_year with
      | none => simp at hy
      | some y => simp at hy; simp [hy]
    · exact Or.inr hov
  · rintro (⟨m, hm, ht, hy⟩ | hov)
    · refine Or.inl ⟨m, hm, ht, ?_⟩
      cases release_year with
      | none => simp at hy
      | some y =>
        have hmy : m.year = y := by injection hy
        simp [hmy]
    · exact Or.inr hov

/-- Model of the regex `^https://www\.imdb\.com/title/(tt\d+)$` of
`parse_movie_nfo_imdb` (src/script.py:237): the exact canonical identity URL,
returning the captured identity id. -/
def canonicalImdbId (s : Line) : Option Line :=
  if (strL "https://www.imdb.com/title/tt").isPrefixOf s then
    let ds := s.drop 29
    if !ds.isEmpty && ds.all Char.isDigit then some ('t' :: 't' :: ds) else none
  else none

/-- Scheme part of the regex `^https?://(www\.)?imdb\.com/title/tt\d+/?$`
(src/script.py:240): `http` or `https` followed by `://`. -/
def afterScheme : Line → Option Line
  | 'h' :: 't' :: 't' :: 'p' ::rest =>
    (match rest with
     | 's' :: ':' :: '/' :: '/' :: r => some r
     | ':' :: '/' :: '/' :: r => some r
     | _ => none)
  | _ => none

/-- Optional `www.` group of the poor-URL regex; no observable backtracking
exists because a string starting with `www.` cannot also start with `imdb`. -/
def dropWww : Line → Line
  | 'w' :: 'w' :: 'w' :: '.' ::r => r
  | r => r

/-- Tail `imdb\.com/title/tt\d+/?$` of the poor-URL regex: at least one
digit, then an optional slash, then the end of the string. -/
def poorImdbTail : Line → Bool
  | 'i' :: 'm' :: 'd' :: 'b' :: '.' :: 'c' :: 'o' :: 'm' :: '/' :: 't' :: 'i' :: 't' :: 'l' :: 'e' :: '/' :: 't' :: 't' ::ds =>
    !(ds.takeWhile Char.isDigit).isEmpty &&
      (ds.dropWhile Char.isDigit == [] || ds.dropWhile Char.isDigit == ['/'])
  | _ => false

/-- Model of the regex `^https?://(www\.)?imdb\.com/title/tt\d+/?$`
(src/script.py:240), the near-miss IMDb URL shapes reported as "poor". -/
def poorImdbUrl (s : Line) : Bool :=
  match afterScheme s with
  | some r => poorImdbTail (dropWww r)
  | none => false

/-- Tail of the regex `^ https://www.themoviedb.org/.*?$` after its leading
space (src/script.py:243).  The unescaped dots are wildcards (`_` below) and
the final `.*?$` is modelled loosely as any tail: this is a superset of the
real matches, and the development proves even the superset unreachable, so
the loss of precision is conservative. -/
def tmdbLinkTail : Line → Bool
  | 'h' :: 't' :: 't' :: 'p' :: 's' :: ':' :: '/' :: '/' :: 'w' :: 'w' :: 'w' ::_:: 't' :: 'h' :: 'e' :: 'm' :: 'o' :: 'v' :: 'i' :: 'e' :: 'd' :: 'b' ::_:: 'o' :: 'r' :: 'g' :: '/' ::_ => true
  | _ => false

/-- Model of the regex `^ https://www.themoviedb.org/.*?$` (src/script.py:243):
note the mandatory leading space demanded by the pattern. -/
def tmdbLinkPat : Line → Bool
  | [] => false
  | c :: rest => c == ' ' && tmdbLinkTail rest

/-- Result of `parse_movie_nfo_imdb`: the identity hint, if any, and whether
a diagnostic (`print_error`) was emitted. -/
structure HintResult where
  hint : Option Line
  diag : Bool
deriving DecidableEq

/-- Shallow embedding of `parse_movie_nfo_imdb` (src/script.py:230-250) on
the list of lines of the sidecar file: an empty file yields no hint and no
diagnostic; otherwise the stripped last line is matched against the
canonical identity URL, then the poor IMDb URL shape (diagnostic), then the
space-anchored TMDb URL shape (silent), and anything else is a diagnostic. -/
def parse_movie_nfo_imdb (lines : List Line) : HintResult :=
  match lines.getLast? with
  | none => ⟨none, false⟩
  | some last =>
    let last_line := pyStrip last
    match canonicalImdbId last_line with
    | some id => ⟨some id, false⟩
    | none =>
      if poorImdbUrl last_line then ⟨none, true⟩
      else if tmdbLinkPat last_line then ⟨none, false⟩
      else ⟨none, true⟩

/-- Key fact for C4: a stripped line can never start with a space, so the
space-anchored TMDb regex of src/script.py:243 can never match. -/
theorem tmdbLinkPat_pyStrip_false (l : Line) : tmdbLinkPat (pyStrip l) = false := by
  have hh := List.head?_dropWhile_not pySpace ((l.reverse.dropWhile pySpace).reverse)
  cases h : pyStrip l with
  | nil => rfl
  | cons c rest =>
    have hps : pyStrip l = List.dropWhile pySpace ((l.reverse.dropWhile pySpace).reverse) := rfl
    rw [hps] at h
    rw [h] at hh
    simp only [List.head?_cons] at hh
    have hc : pySpace c = false := hh
    have hcs : (c == ' ') = false := by
      cases hcc : c == ' ' with
      | false => rfl
      | true =>
        have : c = ' ' := eq_of_beq hcc
        subst this
        simp [pySpace] at hc
    simp [tmdbLinkPat, hcs]

/-- C4 (code bug): the claim says explicitly recognized alternate-provider
URL shapes yield no hint silently, but the TMDb branch of
`parse_movie_nfo_imdb` requires a leading space on a line that has already
been stripped, so it is unreachable: a TMDb trailing line produces a
diagnostic instead of being silently treated as absent.  The first conjunct
shows the silent branch can never fire on any input; the second evaluates
the embedded code on a concrete TMDb trailing line and observes the
diagnostic. -/
theorem parse_movie_nfo_imdb_tmdb_not_silent :
    (∀ l : Line, tmdbLinkPat (pyStrip l) = false) ∧
      parse_movie_nfo_imdb
          [strL "<movie></movie>",
           strL "https://www.themoviedb.org/movie/27205-inception"] =
        ⟨none, true⟩ := by
  constructor
  · exact tmdbLinkPat_pyStrip_false
  · decide

/-- Apostrophe character, written via its code point. -/
def apos : Char := Char.ofNat 39

/-- Characters acceptable inside an element tag name in the model; the
program only ever handles the names `movie`, `title`, `playcount` and
`tag`, and the model's parser rejects the delimiter characters that
`xml.etree.ElementTree` would also reject in a name. -/
def isTagChar (c : Char) : Bool :=
  !(c == '<') && !(c == '>') && !(c == '/') && !(c == ' ') && !(c == '&') &&
    !(c == '?')

/-- Model of the text escaping performed by `ElementTree` serialization
(`tostring` / `tree.write`): `&`, `<` and `>` are replaced by their named
entities, everything else is kept. -/
def xmlEscape : Line → Line
  | [] => []
  | c :: rest =>
    (if c == '&' then ['&', 'a', 'm', 'p', ';']
     else if c == '<' then ['&', 'l', 't', ';']
     else if c == '>' then ['&', 'g', 't', ';']
     else [c]) ++ xmlEscape rest

/-- Model of entity resolution performed by `ElementTree` parsing on text
content: the five predefined named entities are resolved, a bare or unknown
`&` sequence is a parse failure.  Numeric character references are not
modelled; files using them fall outside the model's parser, which only
shrinks the domain the theorems quantify over. -/
def xmlUnescape : Line → Option Line
  | [] => some []
  | c :: rest =>
    if c == '&' then
      match rest with
      | 'a' :: 'm' :: 'p' :: ';' ::r => (xmlUnescape r).map ('&' :: ·)
      | 'l' :: 't' :: ';' ::r => (xmlUnescape r).map ('<' :: ·)
      | 'g' :: 't' :: ';' ::r => (xmlUnescape r).map ('>' :: ·)
      | 'q' :: 'u' :: 'o' :: 't' :: ';' ::r => (xmlUnescape r).map ('"' :: ·)
      | 'a' :: 'p' :: 'o' :: 's' :: ';' ::r => (xmlUnescape r).map (apos :: ·)
      | _ => none
    else (xmlUnescape rest).map (c :: ·)

/-- One leaf child element of the sidecar document: tag name and (unescaped)
text content. -/
structure FlatElem where
  tag : Line
  text : Line
deriving DecidableEq

/-- The structured part of a sidecar file as the program manages it: a root
element containing a flat list of leaf children.  This is the shape
`create_movie_nfo` writes and the mutation functions rewrite; the model's
parser accepts exactly this shape (a sub-domain of what `ElementTree`
accepts, which only shrinks the set of files the theorems quantify over). -/
structure FlatDoc where
  rootTag : Line
  children : List FlatElem
deriving DecidableEq

/-- Parse an opening tag `<name>` at the head of a line, returning the name
and the remainder of the line. -/
def splitTag (l : Line) : Option (Line × Line) :=
  match l with
  | [] => none
  | c :: rest =>
    if c == '<' then
      let tag := rest.takeWhile isTagChar
      if tag.isEmpty then none
      else
        match rest.dropWhile isTagChar with
        | [] => none
        | c2 :: r2 => if c2 == '>' then some (tag, r2) else none
    else none

/-- Parse one leaf child line `  <name>text</name>` (any number of leading
spaces, non-empty text, matching closing tag ending the line), resolving
entities in the text as `ElementTree` does. -/
def parseLeaf (l : Line) : Option FlatElem :=
  match splitTag (l.dropWhile (· == ' ')) with
  | none => none
  | some (tag, r2) =>
    let esc := r2.takeWhile (fun c => !(c == '<'))
    if esc.isEmpty then none
    else
      match r2.dropWhile (fun c => !(c == '<')) with
      | c1 :: c2 :: r3 =>
        if c1 == '<' && c2 == '/' then
          if r3 == tag ++ ['>'] then (xmlUnescape esc).map (fun txt => ⟨tag, txt⟩)
          else none
        else none
      | _ => none

/-- Parse every middle line as a leaf child. -/
def parseLeaves : List Line → Option (List FlatElem)
  | [] => some []
  | l :: rest =>
    match parseLeaf l with
    | none => none
    | some e => (parseLeaves rest).map (e :: ·)

/-- Recognize an XML declaration line (all three declaration variants the
program writes start with this marker). -/
def isDeclLine (l : Line) : Bool := (strL "<?xml").isPrefixOf l

/-- Drop the optional XML declaration line at the head of the structured
part (the `ElementTree` parser accepts the declaration the program writes). -/
def dropDeclLine (ls : List Line) : List Line :=
  match ls with
  | [] => []
  | l :: rest => if isDeclLine l then rest else l :: rest

/-- Model of `ET.fromstring` on the joined non-trailing lines of a sidecar
file, restricted to the flat single-root shape the program reads and
writes: an optional declaration line, a root line `<name>`, leaf child
lines, and a closing line `</name>`. -/
def parseMovieXml (ls : List Line) : Option FlatDoc :=
  match dropDeclLine ls with
  | [] => none
  | first :: rest =>
    match splitTag first with
    | none => none
    | some (tag, r) =>
      if !r.isEmpty then none
      else
        match rest.getLast? with
        | none => none
        | some lastL =>
          if lastL == '<' :: '/' :: (tag ++ ['>']) then
            (parseLeaves rest.dropLast).map (fun ch => FlatDoc.mk tag ch)
          else none

/-- Render one leaf child `  <name>text</name>` the way `indent_xml` plus
`ElementTree` serialization lays it out: two-space indent, escaped text,
closing tag ending the line. -/
def renderLeaf (e : FlatElem) : Line :=
  ' ' :: ' ' :: '<' ::
    (e.tag ++ ('>' :: (xmlEscape e.text ++ ('<' :: '/' :: (e.tag ++ ['>'])))))

/-- Render the structured part of a sidecar document the way the program's
`indent_xml` + serialization writes it (root line, indented children, one
per line, closing root line).  `indent_xml` (src/script.py:364-374) sets the
root text and every child tail — all whitespace after parsing a file of
this shape — to exactly this layout. -/
def renderFlat (d : FlatDoc) : List Line :=
  ('<' :: (d.rootTag ++ ['>'])) ::
    (d.children.map renderLeaf ++ [('<' :: '/' :: (d.rootTag ++ ['>']))])

/-- Well-formedness of a tag name: non-empty, made of tag characters. -/
def tagOk (t : Line) : Bool := !t.isEmpty && t.all isTagChar

/-- Well-formedness of a leaf: proper tag name and non-empty text (the
model's parser never produces empty text, and `ElementTree` would render
empty-text elements self-closing, outside the model's line shape). -/
def elemOk (e : FlatElem) : Bool := tagOk e.tag && !e.text.isEmpty

/-- Well-formedness of a document. -/
def docOk (d : FlatDoc) : Bool := tagOk d.rootTag && d.children.all elemOk

/-- Symmetry of boolean equality, generically. -/
theorem beqComm {α : Type} [BEq α] [LawfulBEq α] (x y : α) : (x == y) = (y == x) := by
  cases h : x == y
  · cases h' : y == x
    · rfl
    · have hxy : y = x := eq_of_beq h'
      subst hxy
      rw [beq_self_eq_true] at h
      exact h.symm
  · have hxy : x = y := eq_of_beq h
    subst hxy
    exact (beq_self_eq_true x).symm

/-- Escaped text never contains a raw opening angle bracket. -/
theorem xmlEscape_all_not_lt (cs : Line) :
    (xmlEscape cs).all (fun c => !(c == '<')) = true := by
  induction cs with
  | nil => rfl
  | cons c rest ih =>
    unfold xmlEscape
    rw [List.all_append]
    refine Bool.and_eq_true_iff.mpr ⟨?_, ih⟩
    cases h1 : c == '&' with
    | true => simp
    | false =>
      cases h2 : c == '<' with
      | true => simp [h1]
      | false =>
        cases h3 : c == '>' with
        | true => simp [h1, h2]
        | false => simp [h1, h2, h3]

/-- Escaping a non-empty text yields a non-empty line. -/
theorem xmlEscape_ne_nil (c : Char) (rest : Line) : xmlEscape (c :: rest) ≠ [] := by
  unfold xmlEscape
  cases h1 : c == '&' with
  | true => simp
  | false =>
    cases h2 : c == '<' with
    | true => simp [h1]
    | false =>
      cases h3 : c == '>' with
      | true => simp [h1, h2]
      | false => simp [h1, h2, h3]

/-- Entity resolution undoes serialization escaping. -/
theorem xmlUnescape_xmlEscape (cs : Line) : xmlUnescape (xmlEscape cs) = some cs := by
  induction cs with
  | nil => rfl
  | cons c rest ih =>
    unfold xmlEscape
    cases h1 : c == '&' with
    | true =>
      have hc : c = '&' := eq_of_beq h1
      subst hc
      simp only [if_true, List.cons_append, List.nil_append]
      unfold xmlUnescape
      simp [ih]
    | false =>
      cases h2 : c == '<' with
      | true =>
        have hc : c = '<' := eq_of_beq h2
        subst hc
        simp only [h1, if_true, if_false, Bool.false_eq_true, List.cons_append,
          List.nil_append]
        unfold xmlUnescape
        simp [ih]
      | false =>
        cases h3 : c == '>' with
        | true =>
          have hc : c = '>' := eq_of_beq h3
          subst hc
          simp only [h1, h2, if_true, if_false, Bool.false_eq_true,
            List.cons_append, List.nil_append]
          unfold xmlUnescape
          simp [ih]
        | false =>
          simp only [h1, h2, h3, if_false, Bool.false_eq_true,
            List.singleton_append]
          unfold xmlUnescape
          simp [h1, ih]

/-- Entity resolution of a non-empty line yields non-empty text. -/
theorem xmlUnescape_ne_nil (c : Char) (rest : Line) (t : Line)
    (h : xmlUnescape (c :: rest) = some t) : t ≠ [] := by
  unfold xmlUnescape at h
  cases h1 : c == '&' with
  | true =>
    rw [h1] at h
    simp only [if_true] at h
    split at h
    · obtain ⟨a, -, ha⟩ := Option.map_eq_some'.mp h
      simp [← ha]
    · obtain ⟨a, -, ha⟩ := Option.map_eq_some'.mp h
      simp [← ha]
    · obtain ⟨a, -, ha⟩ := Option.map_eq_some'.mp h
      simp [← ha]
    · obtain ⟨a, -, ha⟩ := Option.map_eq_some'.mp h
      simp [← ha]
    · obtain ⟨a, -, ha⟩ := Option.map_eq_some'.mp h
      simp [← ha]
    · exact absurd h (by simp)
  | false =>
    rw [h1] at h
    simp only [Bool.false_eq_true, if_false] at h
    obtain ⟨a, -, ha⟩ := Option.map_eq_some'.mp h
    simp [← ha]

/-- Unpack well-formedness of a tag name. -/
theorem tagOk_spec (t : Line) (h : tagOk t = true) :
    t ≠ [] ∧ ∀ a ∈ t, isTagChar a = true := by
  unfold tagOk at h
  rcases Bool.and_eq_true_iff.mp h with ⟨h1, h2⟩
  exact ⟨by simpa using h1, fun a ha => List.all_eq_true.mp h2 a ha⟩

/-- An opening-tag line produced by the renderer parses back to its tag. -/
theorem splitTag_render (t : Line) (r : Line) (h : tagOk t = true) :
    splitTag ('<' :: (t ++ ('>' :: r))) = some (t, r) := by
  obtain ⟨hne, hall⟩ := tagOk_spec t h
  have hte : List.takeWhile isTagChar (t ++ ('>' :: r)) = t := by
    rw [List.takeWhile_append_of_pos hall]
    simp [List.takeWhile, isTagChar]
  have hde : List.dropWhile isTagChar (t ++ ('>' :: r)) = '>' :: r := by
    rw [List.dropWhile_append_of_pos hall]
    simp [List.dropWhile, isTagChar]
  simp only [splitTag, hte, hde]
  simp [List.isEmpty_iff, hne]

/-- A closing root line is never mistaken for an XML declaration. -/
theorem isDeclLine_render_false (t : Line) (r : Line) (h : tagOk t = true) :
    isDeclLine ('<' :: (t ++ r)) = false := by
  obtain ⟨hne, hall⟩ := tagOk_spec t h
  rcases t with _ | ⟨c, t'⟩
  · exact absurd rfl hne
  · have hc : isTagChar c = true := hall c (by simp)
    have hq : (c == '?') = false := by
      cases hcc : c == '?' with
      | false => rfl
      | true =>
        have : c = '?' := eq_of_beq hcc
        subst this
        simp [isTagChar] at hc
    have hq' : ('?' == c) = false := by rw [beqComm]; exact hq
    show ((strL "<?xml").isPrefixOf ('<' :: (c :: t' ++ r))) = false
    have hs : strL "<?xml" = ['<', '?', 'x', 'm', 'l'] := rfl
    rw [hs]
    simp only [List.cons_append, List.isPrefixOf]
    simp [hq']

/-- A rendered leaf line parses back to its element. -/
theorem parseLeaf_renderLeaf (e : FlatElem) (h : elemOk e = true) :
    parseLeaf (renderLeaf e) = some e := by
  unfold elemOk at h
  rcases Bool.and_eq_true_iff.mp h with ⟨htag, htext⟩
  have htne : e.text ≠ [] := by simpa using htext
  have hdrop : List.dropWhile (fun c => c == ' ')
      (' ' :: ' ' :: '<' ::
        (e.tag ++ ('>' :: (xmlEscape e.text ++ ('<' :: '/' :: (e.tag ++ ['>'])))))) =
      '<' :: (e.tag ++ ('>' :: (xmlEscape e.text ++ ('<' :: '/' :: (e.tag ++ ['>']))))) := by
    simp [List.dropWhile]
  have hsplit := splitTag_render e.tag
      (xmlEscape e.text ++ ('<' :: '/' :: (e.tag ++ ['>']))) htag
  have hesc : ∀ a ∈ xmlEscape e.text, (fun c => !(c == '<')) a = true :=
    fun a ha => List.all_eq_true.mp (xmlEscape_all_not_lt e.text) a ha
  have hte : List.takeWhile (fun c => !(c == '<'))
      (xmlEscape e.text ++ ('<' :: '/' :: (e.tag ++ ['>']))) = xmlEscape e.text := by
    rw [List.takeWhile_append_of_pos hesc]
    simp [List.takeWhile]
  have hde : List.dropWhile (fun c => !(c == '<'))
      (xmlEscape e.text ++ ('<' :: '/' :: (e.tag ++ ['>']))) =
      '<' :: '/' :: (e.tag ++ ['>']) := by
    rw [List.dropWhile_append_of_pos hesc]
    simp [List.dropWhile]
  have hene : (xmlEscape e.text).isEmpty = false := by
    rcases ht : e.text with _ | ⟨c, rest⟩
    · exact absurd ht htne
    · have := xmlEscape_ne_nil c rest
      simpa [List.isEmpty_iff] using this
  simp only [renderLeaf, parseLeaf, hdrop, hsplit, hte, hde, hene,
    Bool.false_eq_true, if_false]
  simp [xmlUnescape_xmlEscape]

/-- Rendered leaves parse back to the original children. -/
theorem parseLeaves_renderLeaf (es : List FlatElem)
    (h : ∀ e ∈ es, elemOk e = true) :
    parseLeaves (es.map renderLeaf) = some es := by
  induction es with
  | nil => rfl
  | cons e rest ih =>
    simp only [List.map_cons]
    unfold parseLeaves
    rw [parseLeaf_renderLeaf e (h e (by simp))]
    rw [ih (fun e' he' => h e' (by simp [he']))]
    rfl

/-- The rendered structured part of a well-formed document parses back to
the document: the model's serializer and parser are mutually inverse on the
shapes the program writes. -/
theorem parseMovieXml_renderFlat (d : FlatDoc) (h : docOk d = true) :
    parseMovieXml (renderFlat d) = some d := by
  unfold docOk at h
  rcases Bool.and_eq_true_iff.mp h with ⟨htag, hch⟩
  have hch' : ∀ e ∈ d.children, elemOk e = true :=
    fun e he => List.all_eq_true.mp hch e he
  have hdecl : isDeclLine ('<' :: (d.rootTag ++ ['>'])) = false :=
    isDeclLine_render_false d.rootTag ['>'] htag
  have hsplit : splitTag ('<' :: (d.rootTag ++ ['>'])) = some (d.rootTag, []) := by
    have h0 : ('>' : Char) :: ([] : Line) = ['>'] := rfl
    rw [← h0]
    exact splitTag_render _ _ htag
  simp only [renderFlat, parseMovieXml, dropDeclLine, hdecl, hsplit,
    List.getLast?_concat, List.dropLast_concat,
    parseLeaves_renderLeaf d.children hch']
  simp
  rw [hsplit]
  simp [parseLeaves_renderLeaf d.children hch']

/-- A tag produced by `splitTag` is well-formed. -/
theorem splitTag_tagOk (l tag r : Line) (h : splitTag l = some (tag, r)) :
    tagOk tag = true := by
  unfold splitTag at h
  rcases l with _ | ⟨c, rest⟩
  · simp at h
  · by_cases hc : (c == '<') = true
    · simp only [hc, if_true] at h
      by_cases hemp : (List.takeWhile isTagChar rest).isEmpty = true
      · rw [if_pos hemp] at h
        simp at h
      · rw [if_neg hemp] at h
        rcases hd : List.dropWhile isTagChar rest with _ | ⟨c2, r2⟩ <;> rw [hd] at h
        · simp at h
        · simp only at h
          by_cases hgt : (c2 == '>') = true
          · rw [if_pos hgt] at h
            simp only [Option.some.injEq, Prod.mk.injEq] at h
            obtain ⟨h1, -⟩ := h
            unfold tagOk
            rw [← h1]
            refine Bool.and_eq_true_iff.mpr ⟨by simpa using hemp, ?_⟩
            exact List.all_eq_true.mpr fun a ha => List.mem_takeWhile_imp ha
          · rw [if_neg hgt] at h
            simp at h
    · simp only [Bool.not_eq_true] at hc
      simp [hc] at h

/-- An element produced by `parseLeaf` is well-formed. -/
theorem parseLeaf_elemOk (l : Line) (e : FlatElem) (h : parseLeaf l = some e) :
    elemOk e = true := by
  unfold parseLeaf at h
  rcases hs : splitTag (l.dropWhile (· == ' ')) with _ | ⟨tag, r2⟩ <;> rw [hs] at h
  · simp at h
  · simp only at h
    by_cases hemp : (List.takeWhile (fun c => !(c == '<')) r2).isEmpty = true
    · rw [if_pos hemp] at h
      simp at h
    · rw [if_neg hemp] at h
      rcases hd : List.dropWhile (fun c => !(c == '<')) r2 with _ | ⟨c1, rest1⟩ <;>
        rw [hd] at h
      · simp at h
      · rcases rest1 with _ | ⟨c2, r3⟩
        · simp at h
        · simp only at h
          by_cases hcc : (c1 == '<' && c2 == '/') = true
          · rw [if_pos hcc] at h
            by_cases hr3 : (r3 == tag ++ ['>']) = true
            · rw [if_pos hr3] at h
              obtain ⟨txt, hu, he⟩ := Option.map_eq_some'.mp h
              unfold elemOk
              rw [← he]
              refine Bool.and_eq_true_iff.mpr ⟨splitTag_tagOk _ _ _ hs, ?_⟩
              rcases hesc : List.takeWhile (fun c => !(c == '<')) r2 with _ | ⟨c0, rest0⟩
              · rw [hesc] at hemp
                simp at hemp
              · rw [hesc] at hu
                have := xmlUnescape_ne_nil c0 rest0 txt hu
                simpa [List.isEmpty_iff] using this
            · rw [if_neg hr3] at h
              simp at h
          · rw [if_neg hcc] at h
            simp at h

/-- Elements produced by `parseLeaves` are all well-formed. -/
theorem parseLeaves_elemOk (ls : List Line) (es : List FlatElem)
    (h : parseLeaves ls = some es) : ∀ e ∈ es, elemOk e = true := by
  induction ls generalizing es with
  | nil =>
    unfold parseLeaves at h
    simp only [Option.some.injEq] at h
    subst h
    intro e he
    simp at he
  | cons l rest ih =>
    unfold parseLeaves at h
    rcases hl : parseLeaf l with _ | e' <;> rw [hl] at h
    · simp at h
    · obtain ⟨es', hes', he⟩ := Option.map_eq_some'.mp h
      intro e he'
      rw [← he] at he'
      rcases List.mem_cons.mp he' with h1 | h2
      · subst h1
        exact parseLeaf_elemOk _ _ hl
      · exact ih es' hes' e h2

/-- A document produced by `parseMovieXml` is well-formed. -/
theorem parseMovieXml_docOk (ls : List Line) (d : FlatDoc)
    (h : parseMovieXml ls = some d) : docOk d = true := by
  unfold parseMovieXml at h
  rcases hdl : dropDeclLine ls with _ | ⟨first, rest⟩ <;> rw [hdl] at h
  · simp at h
  · simp only at h
    rcases hs : splitTag first with _ | ⟨tag, r⟩ <;> rw [hs] at h
    · simp at h
    · simp only at h
      by_cases hr : (!r.isEmpty) = true
      · rw [if_pos hr] at h
        simp at h
      · rw [if_neg hr] at h
        rcases hgl : rest.getLast? with _ | lastL <;> rw [hgl] at h
        · simp at h
        · simp only at h
          by_cases hlast : (lastL == '<' :: '/' :: (tag ++ ['>'])) = true
          · rw [if_pos hlast] at h
            obtain ⟨ch, hch, hd2⟩ := Option.map_eq_some'.mp h
            unfold docOk
            rw [← hd2]
            refine Bool.and_eq_true_iff.mpr ⟨splitTag_tagOk _ _ _ hs, ?_⟩
            exact List.all_eq_true.mpr (parseLeaves_elemOk _ _ hch)
          · rw [if_neg hlast] at h
            simp at h

/-- Model of `str.replace('&', '&amp;')` in `create_movie_nfo`
(src/script.py:274). -/
def ampRep : Line → Line
  | [] => []
  | c :: rest => (if c == '&' then ['&', 'a', 'm', 'p', ';'] else [c]) ++ ampRep rest

/-- Model of the second replacement of `create_movie_nfo`
(src/script.py:275): the typographic right single quote becomes an
apostrophe. -/
def curlyQuoteRep (cs : Line) : Line :=
  cs.map (fun c => if c == '’' then apos else c)

/-- Shallow embedding of `create_movie_nfo` (src/script.py:272-287) as the
list of lines it writes: declaration, root opening, title line with the two
ad hoc replacements applied, optional watched marker, root closing, and the
trailing identity line (written without a final newline). -/
def create_movie_nfo (imdb_id : Line) (title : Line) (watched : Bool) : List Line :=
  [strL "<?xml version=\"1.0\" encoding=\"UTF-8\"?>",
   strL "<movie>",
   ' ' :: ' ' :: '<' ::
     (strL "title" ++
       ('>' :: (curlyQuoteRep (ampRep title) ++
         ('<' :: '/' :: (strL "title" ++ ['>'])))))] ++
  (if watched then [strL "  <playcount>1</playcount>"] else []) ++
  [strL "</movie>", strL "https://www.imdb.com/title/" ++ imdb_id]

/-- Shallow embedding of `parse_movie_nfo_xml` (src/script.py:290-308): at
least two lines, all lines but the last parsed as the structured document. -/
def parse_movie_nfo_xml (file : List Line) : Option FlatDoc :=
  if file.length < 2 then none
  else parseMovieXml file.dropLast

/-- Shallow embedding of `get_movie_element` (src/script.py:337-349): require
the `movie` root, find the first child with the given name, return its
stripped text. -/
def get_movie_element (root : FlatDoc) (node_name : Line) : Option Line :=
  if root.rootTag == strL "movie" then
    (root.children.find? (fun e => e.tag == node_name)).map (fun e => pyStrip e.text)
  else none

/-- Shallow embedding of `get_movie_elements` (src/script.py:352-361): require
the `movie` root, collect every child with the given name whose text is
truthy, stripped. -/
def get_movie_elements (root : FlatDoc) (node_name : Line) : Option (List Line) :=
  if root.rootTag == strL "movie" then
    some (((root.children.filter (fun e => e.tag == node_name)).filter
      (fun e => !e.text.isEmpty)).map (fun e => pyStrip e.text))
  else none

/-- A sidecar document as the specification describes it: title, watched
flag, tag list, and identity id from the trailing line. -/
structure SidecarDoc where
  title : Line
  watched : Bool
  tags : List Line
  imdb : Option Line
deriving DecidableEq

/-- The Sidecar Store's read, composed exactly the way `__main__` extracts a
document from a sidecar file (src/script.py:529-557): `parse_movie_nfo_xml`
for the structured part, `get_movie_element` for the title and the watched
marker presence, `get_movie_elements` for the tags, and
`parse_movie_nfo_imdb` for the trailing identity id. -/
def read_sidecar (file : List Line) : Option SidecarDoc :=
  match parse_movie_nfo_xml file with
  | none => none
  | some root =>
    match get_movie_element root (strL "title") with
    | none => none
    | some t =>
      some { title := t,
             watched := (get_movie_element root (strL "playcount")).isSome,
             tags := (get_movie_elements root (strL "tag")).getD [],
             imdb := (parse_movie_nfo_imdb file).hint }

/-- Dropping while a predicate fails everywhere is the identity. -/
theorem dropWhile_all_neg (p : Char → Bool) (l : Line)
    (h : ∀ c ∈ l, p c = false) : List.dropWhile p l = l := by
  cases l with
  | nil => rfl
  | cons c rest => simp [List.dropWhile, h c (by simp)]

/-- Stripping a line with no whitespace is the identity. -/
theorem pyStrip_no_ws (l : Line) (h : ∀ c ∈ l, pySpace c = false) :
    pyStrip l = l := by
  unfold pyStrip
  rw [dropWhile_all_neg _ _ (fun c hc => h c (List.mem_reverse.mp hc)),
    List.reverse_reverse, dropWhile_all_neg _ _ h]

/-- Characters of the amp-escaped title come from the title or the entity. -/
theorem mem_ampRep (a : Char) (cs : Line) (h : a ∈ ampRep cs) :
    a ∈ cs ∨ a ∈ (['&', 'a', 'm', 'p', ';'] : Line) := by
  induction cs with
  | nil => simp [ampRep] at h
  | cons c rest ih =>
    unfold ampRep at h
    rcases List.mem_append.mp h with h1 | h2
    · by_cases hc : (c == '&') = true
      · rw [if_pos hc] at h1
        exact Or.inr h1
      · rw [if_neg hc] at h1
        simp at h1
        subst h1
        exact Or.inl (by simp)
    · rcases ih h2 with h3 | h4
      · exact Or.inl (by simp [h3])
      · exact Or.inr h4

/-- Amp-escaping a non-empty title yields a non-empty line. -/
theorem ampRep_ne_nil (c : Char) (rest : Line) : ampRep (c :: rest) ≠ [] := by
  unfold ampRep
  by_cases hc : (c == '&') = true
  · rw [if_pos hc]
    simp
  · rw [if_neg hc]
    simp

/-- Entity resolution undoes the amp replacement of `create_movie_nfo`. -/
theorem xmlUnescape_ampRep (cs : Line) : xmlUnescape (ampRep cs) = some cs := by
  induction cs with
  | nil => rfl
  | cons c rest ih =>
    unfold ampRep
    by_cases hc : (c == '&') = true
    · have hc' : c = '&' := eq_of_beq hc
      subst hc'
      rw [if_pos hc]
      simp only [List.cons_append, List.nil_append]
      unfold xmlUnescape
      simp [ih]
    · rw [if_neg hc]
      simp only [List.singleton_append]
      unfold xmlUnescape
      simp only [hc, Bool.false_eq_true, if_false]
      rw [ih]
      rfl

/-- The quote replacement is the identity on titles without the
typographic quote. -/
theorem curlyQuoteRep_eq_self (cs : Line) (h : ∀ c ∈ cs, ¬c = '’') :
    curlyQuoteRep cs = cs := by
  unfold curlyQuoteRep
  induction cs with
  | nil => rfl
  | cons c rest ih =>
    simp only [List.map_cons]
    have hc : (c == '’') = false := by
      cases hcc : c == '’' with
      | false => rfl
      | true => exact absurd (eq_of_beq hcc) (h c (by simp))
    rw [hc]
    simp only [if_false, Bool.false_eq_true]
    rw [ih (fun c' hc' => h c' (by simp [hc']))]

/-- The title line written by `create_movie_nfo` parses back to a title
element carrying the amp-escaped title's unescaped text, provided the title
contains no raw `<`. -/
theorem parseLeaf_title_line (title : Line) (hne : title ≠ [])
    (hlt : ∀ c ∈ title, ¬c = '<') :
    parseLeaf (' ' :: ' ' :: '<' ::
        (strL "title" ++
          ('>' :: (ampRep title ++ ('<' :: '/' :: (strL "title" ++ ['>'])))))) =
      some ⟨strL "title", title⟩ := by
  have htag : tagOk (strL "title") = true := by decide
  have hdrop : List.dropWhile (fun c => c == ' ')
      (' ' :: ' ' :: '<' ::
        (strL "title" ++
          ('>' :: (ampRep title ++ ('<' :: '/' :: (strL "title" ++ ['>'])))))) =
      '<' :: (strL "title" ++
          ('>' :: (ampRep title ++ ('<' :: '/' :: (strL "title" ++ ['>'])))))  := by
    simp [List.dropWhile]
  have hsplit := splitTag_render (strL "title")
      (ampRep title ++ ('<' :: '/' :: (strL "title" ++ ['>']))) htag
  have hent : ∀ a ∈ (['&', 'a', 'm', 'p', ';'] : Line), (fun c => !(c == '<')) a = true := by
    decide
  have hesc : ∀ a ∈ ampRep title, (fun c => !(c == '<')) a = true := by
    intro a ha
    rcases mem_ampRep a title ha with h1 | h2
    · have : ¬a = '<' := hlt a h1
      simp [this]
    · exact hent a h2
  have hte : List.takeWhile (fun c => !(c == '<'))
      (ampRep title ++ ('<' :: '/' :: (strL "title" ++ ['>']))) = ampRep title := by
    rw [List.takeWhile_append_of_pos hesc]
    simp [List.takeWhile]
  have hde : List.dropWhile (fun c => !(c == '<'))
      (ampRep title ++ ('<' :: '/' :: (strL "title" ++ ['>']))) =
      '<' :: '/' :: (strL "title" ++ ['>']) := by
    rw [List.dropWhile_append_of_pos hesc]
    simp [List.dropWhile]
  have hene : (ampRep title).isEmpty = false := by
    rcases ht : title with _ | ⟨c, rest⟩
    · exact absurd ht hne
    · have := ampRep_ne_nil c rest
      simpa [List.isEmpty_iff] using this
  simp only [parseLeaf, hdrop, hsplit, hte, hde, hene, Bool.false_eq_true, if_false]
  simp [xmlUnescape_ampRep]

/-- Digits are not whitespace. -/
theorem digit_not_space (c : Char) (h : c.isDigit = true) : pySpace c = false := by
  have f : ∀ (w : Char), w.isDigit = false → (c == w) = false := by
    intro w hw
    cases hxw : c == w with
    | false => rfl
    | true =>
      have hcw : c = w := eq_of_beq hxw
      rw [hcw] at h
      rw [h] at hw
      exact absurd hw (by simp)
  unfold pySpace
  rw [f ' ' (by decide), f '\t' (by decide), f '\n' (by decide), f '\r' (by decide),
    f '\x0b' (by decide), f '\x0c' (by decide)]
  rfl

/-- The canonical-URL regex accepts the trailing line `create_movie_nfo`
writes for a well-formed identity id and captures the id back. -/
theorem canonicalImdbId_create (ds : Line) (hne : ds ≠ [])
    (hdig : ∀ c ∈ ds, c.isDigit = true) :
    canonicalImdbId (strL "https://www.imdb.com/title/" ++ ('t' :: 't' :: ds)) =
      some ('t' :: 't' :: ds) := by
  unfold canonicalImdbId
  have hp : (strL "https://www.imdb.com/title/tt").isPrefixOf
      (strL "https://www.imdb.com/title/" ++ ('t' :: 't' :: ds)) = true := by
    simp [List.isPrefixOf, strL]
  have hd : (strL "https://www.imdb.com/title/" ++ ('t' :: 't' :: ds)).drop 29 = ds := rfl
  have h1 : ds.isEmpty = false := by
    rcases ds with _ | _
    · exact absurd rfl hne
    · rfl
  have h2 : ds.all Char.isDigit = true := List.all_eq_true.mpr hdig
  simp [hp, hd, h1, h2]


/-- On titles without raw angle brackets, the ad hoc amp replacement of
`create_movie_nfo` coincides with the `ElementTree` text escaping. -/
theorem ampRep_eq_xmlEscape (cs : Line) (h : ∀ c ∈ cs, ¬c = '<' ∧ ¬c = '>') :
    ampRep cs = xmlEscape cs := by
  induction cs with
  | nil => rfl
  | cons c rest ih =>
    unfold ampRep xmlEscape
    have hlt : (c == '<') = false := beq_false_of_ne (h c (by simp)).1
    have hgt : (c == '>') = false := beq_false_of_ne (h c (by simp)).2
    rw [ih (fun c' hc' => h c' (by simp [hc']))]
    by_cases hamp : (c == '&') = true
    · rw [if_pos hamp, if_pos hamp]
    · rw [if_neg hamp, if_neg hamp, hlt, hgt]
      simp

/-- Parsing a declaration line followed by the rendered structured part
recovers the document. -/
theorem parseMovieXml_decl_render (l : Line) (d : FlatDoc)
    (hl : isDeclLine l = true) (h : docOk d = true) :
    parseMovieXml (l :: renderFlat d) = some d := by
  have h2 := parseMovieXml_renderFlat d h
  have h1 : dropDeclLine (l :: renderFlat d) = renderFlat d := by
    simp [dropDeclLine, renderFlat, hl]
  have htag : tagOk d.rootTag = true := (Bool.and_eq_true_iff.mp (by
    unfold docOk at h
    exact h)).1
  have h3 : dropDeclLine (renderFlat d) = renderFlat d := by
    simp [dropDeclLine, renderFlat, isDeclLine_render_false d.rootTag ['>'] htag]
  unfold parseMovieXml at h2 ⊢
  rw [h1]
  rw [h3] at h2
  exact h2

/-- C1 (amended): writing a document with `create_movie_nfo` and reading it
back preserves the title, watched flag, empty tag set, and identity id,
provided the title is non-empty, already stripped, and free of raw angle
brackets and of the typographic right single quote, and the identity id is
a canonical `tt`-digits id.  (The unamended claim fails: a title containing
`’` is silently rewritten, see the counterexample.) -/
theorem create_read_roundtrip (title ds : Line) (watched : Bool)
    (htne : title ≠ [])
    (hchars : ∀ c ∈ title, ¬c = '<' ∧ ¬c = '>' ∧ ¬c = '’')
    (hstrip : pyStrip title = title)
    (hds_ne : ds ≠ [])
    (hds_digit : ∀ c ∈ ds, c.isDigit = true) :
    read_sidecar (create_movie_nfo ('t' :: 't' :: ds) title watched) =
      some ⟨title, watched, [], some ('t' :: 't' :: ds)⟩ := by
  have hq : curlyQuoteRep (ampRep title) = ampRep title := by
    apply curlyQuoteRep_eq_self
    intro c hc
    rcases mem_ampRep c title hc with h1 | h2
    · exact (hchars c h1).2.2
    · have hent : ∀ a ∈ (['&', 'a', 'm', 'p', ';'] : Line), ¬a = '’' := by decide
      exact hent c h2
  have hampx : ampRep title = xmlEscape title :=
    ampRep_eq_xmlEscape title (fun c hc => ⟨(hchars c hc).1, (hchars c hc).2.1⟩)
  have hcanon := canonicalImdbId_create ds hds_ne hds_digit
  have hid_nows : ∀ c ∈ strL "https://www.imdb.com/title/" ++ ('t' :: 't' :: ds),
      pySpace c = false := by
    intro c hc
    rcases List.mem_append.mp hc with h1 | h2
    · have hpre : ∀ a ∈ strL "https://www.imdb.com/title/", pySpace a = false := by decide
      exact hpre c h1
    · rcases List.mem_cons.mp h2 with h3 | h4
      · subst h3
        decide
      · rcases List.mem_cons.mp h4 with h5 | h6
        · subst h5
          decide
        · exact digit_not_space c (hds_digit c h6)
  have hstrip_id : pyStrip (strL "https://www.imdb.com/title/" ++ ('t' :: 't' :: ds)) =
      strL "https://www.imdb.com/title/" ++ ('t' :: 't' :: ds) :=
    pyStrip_no_ws _ hid_nows
  have htie : title.isEmpty = false := by
    rcases title with _ | _
    · exact absurd rfl htne
    · rfl
  have hhint : parse_movie_nfo_imdb
      (strL "<?xml version=\"1.0\" encoding=\"UTF-8\"?>" ::
        (renderFlat ⟨strL "movie",
          [⟨strL "title", title⟩] ++
            (if watched then [⟨strL "playcount", strL "1"⟩] else [])⟩ ++
          [strL "https://www.imdb.com/title/" ++ ('t' :: 't' :: ds)])) =
      ⟨some ('t' :: 't' :: ds), false⟩ := by
    unfold parse_movie_nfo_imdb
    rw [← List.cons_append, List.getLast?_concat]
    simp only
    rw [hstrip_id, hcanon]
  have hdoc : docOk ⟨strL "movie",
      [⟨strL "title", title⟩] ++
        (if watched then [⟨strL "playcount", strL "1"⟩] else [])⟩ = true := by
    have h1 : tagOk (strL "movie") = true := by decide
    have h2 : tagOk (strL "title") = true := by decide
    have h3 : elemOk ⟨strL "playcount", strL "1"⟩ = true := by decide
    cases watched <;> simp [docOk, elemOk, h1, h2, h3, htie]
    exact ⟨by decide, by decide⟩
  have hfile : create_movie_nfo ('t' :: 't' :: ds) title watched =
      strL "<?xml version=\"1.0\" encoding=\"UTF-8\"?>" ::
        (renderFlat ⟨strL "movie",
          [⟨strL "title", title⟩] ++
            (if watched then [⟨strL "playcount", strL "1"⟩] else [])⟩ ++
          [strL "https://www.imdb.com/title/" ++ ('t' :: 't' :: ds)]) := by
    unfold create_movie_nfo renderFlat
    rw [hq, hampx]
    have hpl : renderLeaf ⟨strL "playcount", strL "1"⟩ =
        strL "  <playcount>1</playcount>" := by decide
    cases watched with
    | false =>
      simp [List.map_cons, renderLeaf, hpl, List.cons_append, List.append_assoc]
      exact ⟨by decide, by decide⟩
    | true =>
      simp [List.map_cons, renderLeaf, hpl, List.cons_append, List.append_assoc]
      exact ⟨by decide, by decide, by decide⟩
  have hparse : parse_movie_nfo_xml
      (strL "<?xml version=\"1.0\" encoding=\"UTF-8\"?>" ::
        (renderFlat ⟨strL "movie",
          [⟨strL "title", title⟩] ++
            (if watched then [⟨strL "playcount", strL "1"⟩] else [])⟩ ++
          [strL "https://www.imdb.com/title/" ++ ('t' :: 't' :: ds)])) =
      some ⟨strL "movie",
        [⟨strL "title", title⟩] ++
          (if watched then [⟨strL "playcount", strL "1"⟩] else [])⟩ := by
    unfold parse_movie_nfo_xml
    rw [if_neg (by cases watched <;> simp [renderFlat])]
    rw [← List.cons_append, List.dropLast_concat]
    exact parseMovieXml_decl_render _ _ (by decide) hdoc
  rw [hfile]
  unfold read_sidecar
  rw [hparse]
  simp only
  have e1 : ((strL "movie" : Line) == strL "movie") = true := by decide
  have e2 : ((strL "title" : Line) == strL "title") = true := by decide
  have e3 : ((strL "title" : Line) == strL "playcount") = false := by decide
  have e4 : ((strL "playcount" : Line) == strL "playcount") = true := by decide
  have e5 : ((strL "title" : Line) == strL "tag") = false := by decide
  have e6 : ((strL "playcount" : Line) == strL "tag") = false := by decide
  have ht_el : get_movie_element ⟨strL "movie",
      [⟨strL "title", title⟩] ++
        (if watched then [⟨strL "playcount", strL "1"⟩] else [])⟩ (strL "title") =
      some title := by
    unfold get_movie_element
    rw [e1]
    simp only [if_true]
    cases watched <;> simp [List.find?, e2, hstrip]
  have hp_el : get_movie_element ⟨strL "movie",
      [⟨strL "title", title⟩] ++
        (if watched then [⟨strL "playcount", strL "1"⟩] else [])⟩ (strL "playcount") =
      (if watched then some (strL "1") else none) := by
    unfold get_movie_element
    rw [e1]
    simp only [if_true]
    cases watched <;>
      simp [List.find?, e3, e4, show pyStrip (strL "1") = strL "1" from by decide]
  have htg_el : get_movie_elements ⟨strL "movie",
      [⟨strL "title", title⟩] ++
        (if watched then [⟨strL "playcount", strL "1"⟩] else [])⟩ (strL "tag") =
      some [] := by
    unfold get_movie_elements
    rw [e1]
    simp only [if_true]
    cases watched <;> simp [List.filter, e5, e6]
  rw [ht_el]
  simp only
  rw [hp_el, htg_el, hhint]
  cases watched <;> simp

/-- Witness for C1: the amended round trip evaluated at a concrete document. -/
theorem create_read_roundtrip_witness :
    read_sidecar (create_movie_nfo (strL "tt1375666") (strL "Inception") true) =
      some ⟨strL "Inception", true, [], some (strL "tt1375666")⟩ :=
  create_read_roundtrip (strL "Inception") (strL "1375666") true (by decide)
    (by decide) (by decide) (by decide) (by decide)

/-- C1 counterexample: the claim's exact round trip fails on a title holding
a typographic right single quote — `create_movie_nfo` rewrites it to an
apostrophe (src/script.py:275), so the document read back differs from the
document written. -/
theorem create_read_not_roundtrip :
    read_sidecar (create_movie_nfo (strL "tt1") ['’'] true) ≠
        some ⟨['’'], true, [], some (strL "tt1")⟩ ∧
      read_sidecar (create_movie_nfo (strL "tt1") ['’'] true) =
        some ⟨[apos], true, [], some (strL "tt1")⟩ := by
  constructor
  · decide
  · decide

/-- Shallow embedding of the argument `__main__` passes as the watched flag
of the creation prompt (src/script.py:532): the letterboxd signal only,
not the aggregate watched status. -/
def creation_watched_arg (letterboxd_data : List LbMovie) (original_title : Line)
    (release_year : Option Int) : Bool :=
  is_movie_in_letterboxd_list letterboxd_data original_title release_year

/-- The created file contains the watched-marker line exactly when the
watched argument is true, whatever the title and identity id are. -/
theorem marker_in_create (imdb_id title : Line) (w : Bool) :
    (strL "  <playcount>1</playcount>" ∈ create_movie_nfo imdb_id title w) ↔
      w = true := by
  have htl : strL "  <playcount>1</playcount>" ≠
      ' ' :: ' ' :: '<' ::
        (strL "title" ++
          ('>' :: (curlyQuoteRep (ampRep title) ++
            ('<' :: '/' :: (strL "title" ++ ['>']))))) := by
    intro h
    have h2 : (' ' :: ' ' :: '<' :: 'p' :: strL "laycount>1</playcount>" : Line) =
        ' ' :: ' ' :: '<' :: 't' ::
          (strL "itle" ++
            ('>' :: (curlyQuoteRep (ampRep title) ++
              ('<' :: '/' :: (strL "title" ++ ['>']))))) := h
    injection h2 with _ h3
    injection h3 with _ h4
    injection h4 with _ h5
    injection h5 with h6 _
    exact absurd h6 (by decide)
  have hil : strL "  <playcount>1</playcount>" ≠
      strL "https://www.imdb.com/title/" ++ imdb_id := by
    intro h
    have h2 : (' ' :: strL " <playcount>1</playcount>" : Line) =
        'h' :: (strL "ttps://www.imdb.com/title/" ++ imdb_id) := h
    injection h2 with h3 _
    exact absurd h3 (by decide)
  unfold create_movie_nfo
  cases w with
  | false =>
    simp only [if_false, Bool.false_eq_true, List.nil_append, List.append_nil]
    constructor
    · intro h
      rcases List.mem_append.mp h with h1 | h1
      · rcases List.mem_cons.mp h1 with h2 | h2
        · exact absurd h2 (by decide)
        · rcases List.mem_cons.mp h2 with h3 | h3
          · exact absurd h3 (by decide)
          · rcases List.mem_cons.mp h3 with h4 | h4
            · exact absurd h4 htl
            · simp at h4
      · rcases List.mem_cons.mp h1 with h2 | h2
        · exact absurd h2 (by decide)
        · rcases List.mem_cons.mp h2 with h3 | h3
          · exact absurd h3 hil
          · simp at h3
    · intro h
      exact absurd h (by decide)
  | true =>
    simp only [if_true]
    constructor
    · intro _
      trivial
    · intro _
      refine List.mem_append.mpr (Or.inl ?_)
      refine List.mem_append.mpr (Or.inr ?_)
      simp

/-- C3 (amended): the sidecar created on user acceptance contains the
watched marker if and only if the bulk-export (letterboxd) signal alone is
true for the resolved record; the aggregate's override component is ignored
at creation time, so an entry watched only via the override list does not
get the marker. -/
theorem create_marker_iff_letterboxd (letterboxd_data : List LbMovie)
    (original_title : Line) (release_year : Option Int) (imdb_id title : Line) :
    (strL "  <playcount>1</playcount>" ∈
        create_movie_nfo imdb_id title
          (creation_watched_arg letterboxd_data original_title release_year)) ↔
      is_movie_in_letterboxd_list letterboxd_data original_title release_year
        = true :=
  marker_in_create imdb_id title _

/-- C3 counterexample: a record watched only via the override list has
aggregate watched status true, but `__main__` passes only the letterboxd
signal at creation (src/script.py:532), so the sidecar it creates carries
no watched marker — refuting the claim that the created marker tracks the
aggregate. -/
theorem create_marker_override_counterexample :
    is_watched_aggregate [] [strL "tt1375666"] (strL "Inception") (some 2010)
        (strL "tt1375666") = true ∧
      creation_watched_arg [] (strL "Inception") (some 2010) = false ∧
      strL "  <playcount>1</playcount>" ∉
        create_movie_nfo (strL "tt1375666") (strL "Inception")
          (creation_watched_arg [] (strL "Inception") (some 2010)) := by
  refine ⟨by decide, by decide, ?_⟩
  decide

/-- Declaration line written by `add_playcount_to_nfo` (src/script.py:467). -/
def declPlaycountLine : Line := strL "<?xml version=\"1.0\" encoding=\"utf-8\"?>"

/-- Declaration line written by `tree.write(..., xml_declaration=True)` in
`add_tag_to_movie_nfo` (src/script.py:405): `ElementTree` emits it with
single quotes. -/
def declTagLine : Line :=
  strL "<?xml version=" ++ [apos] ++ strL "1.0" ++ [apos] ++ strL " encoding=" ++
    [apos] ++ strL "utf-8" ++ [apos] ++ strL "?>"

/-- Shallow embedding of `add_playcount_to_nfo` (src/script.py:439-476):
require at least two lines, parse all but the last, require the `movie`
root, and if no `playcount` child exists append one with text `1`, re-indent
and rewrite the whole file (declaration, structured part, stripped trailing
identity line); return whether a mutation occurred together with the file's
new content. -/
def add_playcount_to_nfo (file : List Line) : Bool × List Line :=
  if file.length < 2 then (false, file)
  else
    match file.getLast? with
    | none => (false, file)
    | some last =>
      let imdb_link := rstripNl last
      match parseMovieXml file.dropLast with
      | none => (false, file)
      | some root =>
        if root.rootTag == strL "movie" then
          if root.children.any (fun e => e.tag == strL "playcount") then
            (false, file)
          else
            (true, declPlaycountLine ::
              (renderFlat ⟨root.rootTag,
                  root.children ++ [⟨strL "playcount", strL "1"⟩]⟩ ++
                [pyStrip imdb_link]))
        else (false, file)

/-- Shallow embedding of `add_tag_to_movie_nfo` (src/script.py:377-415):
same file handling as the playcount mutation, but a `tag` child with the
given text is appended unconditionally (the function does not itself
deduplicate). -/
def add_tag_to_movie_nfo (file : List Line) (tag_value : Line) : Bool × List Line :=
  if file.length < 2 then (false, file)
  else
    match file.getLast? with
    | none => (false, file)
    | some last =>
      let imdb_link := rstripNl last
      match parseMovieXml file.dropLast with
      | none => (false, file)
      | some root =>
        if root.rootTag == strL "movie" then
          (true, declTagLine ::
            (renderFlat ⟨root.rootTag,
                root.children ++ [⟨strL "tag", tag_value⟩]⟩ ++
              [pyStrip imdb_link]))
        else (false, file)

/-- Shallow embedding of the watched-status reconciliation of `__main__`
(src/script.py:546-555) as a transition on the sidecar file and the
override list: on conflict (marker present, aggregate false) a diagnostic
is reported and, on confirmation (`ask_and_append_movie_to_watched_override`
plus `append_movie_to_csv`, src/script.py:418-436), the (comma-less title,
identity id) row is appended to the override list; on the opposite mismatch
the marker is added to the sidecar; otherwise nothing happens. -/
def watched_reconcile (file : List Line) (nfo_watched is_watched confirm : Bool)
    (comma_less_title imdb_id : Line) (override : List (Line × Line)) :
    (List Line) × List (Line × Line) × Bool :=
  let conflict := nfo_watched && !is_watched
  let override' :=
    if conflict then
      (if confirm then override ++ [(comma_less_title, imdb_id)] else override)
    else override
  let file' := if is_watched && !nfo_watched then (add_playcount_to_nfo file).2 else file
  (file', override', conflict)

/-- C9: in the watched-status conflict case (marker present, aggregate
false), the engine reports the conflict, appends the entry to the override
list exactly when the user confirms, and the sidecar file is never mutated
by this branch. -/
theorem conflict_never_mutates_sidecar (file : List Line)
    (nfo_watched is_watched confirm : Bool) (comma_less_title imdb_id : Line)
    (override : List (Line × Line))
    (hn : nfo_watched = true) (hw : is_watched = false) :
    (watched_reconcile file nfo_watched is_watched confirm comma_less_title
        imdb_id override).1 = file ∧
      (watched_reconcile file nfo_watched is_watched confirm comma_less_title
          imdb_id override).2.1 =
        (if confirm then override ++ [(comma_less_title, imdb_id)] else override) ∧
      (watched_reconcile file nfo_watched is_watched confirm comma_less_title
          imdb_id override).2.2 = true := by
  subst hn hw
  simp [watched_reconcile]

/-- Witness for C9: the conflict branch evaluated on a concrete state. -/
theorem conflict_never_mutates_sidecar_witness :
    (watched_reconcile [strL "<movie></movie>", strL "x"] true false true
        (strL "Inception") (strL "tt1375666") []).1 =
        [strL "<movie></movie>", strL "x"] ∧
      (watched_reconcile [strL "<movie></movie>", strL "x"] true false true
          (strL "Inception") (strL "tt1375666") []).2.1 =
        (if true then
            ([] : List (Line × Line)) ++ [(strL "Inception", strL "tt1375666")]
          else []) ∧
      (watched_reconcile [strL "<movie></movie>", strL "x"] true false true
          (strL "Inception") (strL "tt1375666") []).2.2 = true :=
  conflict_never_mutates_sidecar [strL "<movie></movie>", strL "x"] true false
    true (strL "Inception") (strL "tt1375666") [] rfl rfl

/-- Appending a well-formed element preserves document well-formedness. -/
theorem docOk_append_elem (root : FlatDoc) (e : FlatElem) (h : docOk root = true)
    (he : elemOk e = true) :
    docOk ⟨root.rootTag, root.children ++ [e]⟩ = true := by
  unfold docOk at h ⊢
  rcases Bool.and_eq_true_iff.mp h with ⟨h1, h2⟩
  simp [h1, List.all_append, he]
  exact List.all_eq_true.mp h2

/-- Basic facts about a rewritten sidecar file: it is long enough, its last
line is the trailing identity line, and its structured part parses back to
the rewritten document. -/
theorem newfile_parse (l : Line) (root' : FlatDoc) (s : Line)
    (hdecl : isDeclLine l = true) (hdoc : docOk root' = true) :
    ¬((l :: (renderFlat root' ++ [s])).length < 2) ∧
      (l :: (renderFlat root' ++ [s])).getLast? = some s ∧
      parseMovieXml (l :: (renderFlat root' ++ [s])).dropLast = some root' := by
  refine ⟨?_, ?_, ?_⟩
  · simp [renderFlat]
  · rw [← List.cons_append, List.getLast?_concat]
  · rw [← List.cons_append, List.dropLast_concat]
    exact parseMovieXml_decl_render l root' hdecl hdoc

/-- Evaluation of `add_playcount_to_nfo` when the marker is already present:
the file is returned untouched with a `false` flag. -/
theorem add_playcount_noop (file : List Line) (root : FlatDoc) (last : Line)
    (hlen : 2 ≤ file.length) (hgl : file.getLast? = some last)
    (hparse : parseMovieXml file.dropLast = some root)
    (hroot : root.rootTag = strL "movie")
    (hany : root.children.any (fun e => e.tag == strL "playcount") = true) :
    add_playcount_to_nfo file = (false, file) := by
  have hnl : ¬(file.length < 2) := by omega
  unfold add_playcount_to_nfo
  rw [if_neg hnl, hgl]
  simp only
  rw [hparse]
  simp only
  rw [hroot]
  simp only [beq_self_eq_true, if_true]
  rw [hany]
  simp

/-- Evaluation of `add_playcount_to_nfo` when the marker is absent: the
marker element is appended and the file rewritten. -/
theorem add_playcount_result (file : List Line) (root : FlatDoc) (last : Line)
    (hlen : 2 ≤ file.length) (hgl : file.getLast? = some last)
    (hparse : parseMovieXml file.dropLast = some root)
    (hroot : root.rootTag = strL "movie")
    (hany : root.children.any (fun e => e.tag == strL "playcount") = false) :
    add_playcount_to_nfo file =
      (true, declPlaycountLine ::
        (renderFlat ⟨root.rootTag,
            root.children ++ [⟨strL "playcount", strL "1"⟩]⟩ ++
          [pyStrip (rstripNl last)])) := by
  have hnl : ¬(file.length < 2) := by omega
  unfold add_playcount_to_nfo
  rw [if_neg hnl, hgl]
  simp only
  rw [hparse]
  simp only
  rw [hroot]
  simp only [beq_self_eq_true, if_true]
  rw [hany]
  simp

/-- Evaluation of `add_tag_to_movie_nfo` on a parsable movie-rooted file:
the tag element is appended unconditionally and the file rewritten. -/
theorem add_tag_result (file : List Line) (root : FlatDoc) (last : Line)
    (tag_value : Line)
    (hlen : 2 ≤ file.length) (hgl : file.getLast? = some last)
    (hparse : parseMovieXml file.dropLast = some root)
    (hroot : root.rootTag = strL "movie") :
    add_tag_to_movie_nfo file tag_value =
      (true, declTagLine ::
        (renderFlat ⟨root.rootTag,
            root.children ++ [⟨strL "tag", tag_value⟩]⟩ ++
          [pyStrip (rstripNl last)])) := by
  have hnl : ¬(file.length < 2) := by omega
  unfold add_tag_to_movie_nfo
  rw [if_neg hnl, hgl]
  simp only
  rw [hparse]
  simp only
  rw [hroot]
  simp only [beq_self_eq_true, if_true]

/-- C8: `add_playcount_to_nfo` appends the watched-marker element if and
only if it is not already present, is a no-op otherwise, and returns a
boolean indicating whether a mutation occurred; calling it twice in
sequence leaves exactly one watched marker in the file. -/
theorem add_playcount_idempotent (file : List Line) (root : FlatDoc) (last : Line)
    (hlen : 2 ≤ file.length) (hgl : file.getLast? = some last)
    (hparse : parseMovieXml file.dropLast = some root)
    (hroot : root.rootTag = strL "movie") :
    (root.children.any (fun e => e.tag == strL "playcount") = true →
      add_playcount_to_nfo file = (false, file)) ∧
    (root.children.any (fun e => e.tag == strL "playcount") = false →
      (add_playcount_to_nfo file).1 = true ∧
      (∃ root', parseMovieXml ((add_playcount_to_nfo file).2).dropLast = some root' ∧
        root'.children.countP (fun e => e.tag == strL "playcount") = 1) ∧
      add_playcount_to_nfo ((add_playcount_to_nfo file).2) =
        (false, (add_playcount_to_nfo file).2)) := by
  constructor
  · intro hany
    exact add_playcount_noop file root last hlen hgl hparse hroot hany
  · intro hany
    have hres := add_playcount_result file root last hlen hgl hparse hroot hany
    have hdoc := parseMovieXml_docOk _ _ hparse
    have hdoc' : docOk ⟨root.rootTag,
        root.children ++ [⟨strL "playcount", strL "1"⟩]⟩ = true :=
      docOk_append_elem root _ hdoc (by decide)
    obtain ⟨hl2, hgl2, hp2⟩ := newfile_parse declPlaycountLine _
      (pyStrip (rstripNl last)) (by decide) hdoc'
    rw [hres]
    simp only
    refine ⟨trivial, ⟨_, hp2, ?_⟩, ?_⟩
    · rw [List.countP_append]
      have h0 : root.children.countP (fun e => e.tag == strL "playcount") = 0 := by
        rw [List.countP_eq_zero]
        intro e he hpe
        have hx : root.children.any (fun e => e.tag == strL "playcount") = true :=
          List.any_eq_true.mpr ⟨e, he, hpe⟩
        rw [hx] at hany
        exact absurd hany (by simp)
      rw [h0]
      simp [List.countP_cons,
        show ((strL "playcount" : Line) == strL "playcount") = true from by decide]
    · have hany2 : (FlatDoc.mk root.rootTag
          (root.children ++ [⟨strL "playcount", strL "1"⟩])).children.any
            (fun e => e.tag == strL "playcount") = true := by
        simp [List.any_append,
          show ((strL "playcount" : Line) == strL "playcount") = true from by decide]
      exact add_playcount_noop _ _ _ (by omega) hgl2 hp2 hroot hany2

/-- Witness for C8: the mutation and the following no-op evaluated on a
concrete parsable sidecar file without a marker. -/
theorem add_playcount_idempotent_witness :
    (add_playcount_to_nfo
        [strL "<movie>", strL "  <title>X</title>", strL "</movie>",
         strL "https://www.imdb.com/title/tt1"]).1 = true ∧
      add_playcount_to_nfo
          ((add_playcount_to_nfo
            [strL "<movie>", strL "  <title>X</title>", strL "</movie>",
             strL "https://www.imdb.com/title/tt1"]).2) =
        (false, (add_playcount_to_nfo
          [strL "<movie>", strL "  <title>X</title>", strL "</movie>",
           strL "https://www.imdb.com/title/tt1"]).2) := by
  have h := (add_playcount_idempotent
    [strL "<movie>", strL "  <title>X</title>", strL "</movie>",
     strL "https://www.imdb.com/title/tt1"]
    ⟨strL "movie", [⟨strL "title", strL "X"⟩]⟩
    (strL "https://www.imdb.com/title/tt1")
    (by decide) (by decide) (by decide) (by decide)).2 (by decide)
  exact ⟨h.1, h.2.2⟩

/-- C10: the mutation operations preserve everything they do not add — for
every parsable movie-rooted sidecar file, both `add_tag_to_movie_nfo` and
`add_playcount_to_nfo` rewrite the file so that the structured part parses
back to the original children (title, pre-existing tag and marker elements,
in order) plus exactly the one appended element, and the trailing identity
line's content is preserved up to whitespace normalization; when the marker
is already present `add_playcount_to_nfo` leaves the file unchanged. -/
theorem mutations_preserve_existing (file : List Line) (root : FlatDoc)
    (last tagv : Line)
    (hlen : 2 ≤ file.length) (hgl : file.getLast? = some last)
    (hparse : parseMovieXml file.dropLast = some root)
    (hroot : root.rootTag = strL "movie")
    (htagv : tagv ≠ []) :
    ((add_tag_to_movie_nfo file tagv).1 = true ∧
      parseMovieXml ((add_tag_to_movie_nfo file tagv).2).dropLast =
        some ⟨root.rootTag, root.children ++ [⟨strL "tag", tagv⟩]⟩ ∧
      ((add_tag_to_movie_nfo file tagv).2).getLast? =
        some (pyStrip (rstripNl last))) ∧
    (root.children.any (fun e => e.tag == strL "playcount") = false →
      parseMovieXml ((add_playcount_to_nfo file).2).dropLast =
        some ⟨root.rootTag, root.children ++ [⟨strL "playcount", strL "1"⟩]⟩ ∧
      ((add_playcount_to_nfo file).2).getLast? =
        some (pyStrip (rstripNl last))) ∧
    (root.children.any (fun e => e.tag == strL "playcount") = true →
      (add_playcount_to_nfo file).2 = file) := by
  have hdoc := parseMovieXml_docOk _ _ hparse
  refine ⟨?_, ?_, ?_⟩
  · have htagv' : tagv.isEmpty = false := by
      rcases tagv with _ | _
      · exact absurd rfl htagv
      · rfl
    have hel : elemOk ⟨strL "tag", tagv⟩ = true := by
      simp [elemOk, htagv', show tagOk (strL "tag") = true from by decide]
    have hdoc' : docOk ⟨root.rootTag, root.children ++ [⟨strL "tag", tagv⟩]⟩ = true :=
      docOk_append_elem root _ hdoc hel
    obtain ⟨hl2, hgl2, hp2⟩ := newfile_parse declTagLine _
      (pyStrip (rstripNl last)) (by decide) hdoc'
    have hres := add_tag_result file root last tagv hlen hgl hparse hroot
    rw [hres]
    exact ⟨rfl, hp2, hgl2⟩
  · intro hany
    have hdoc' : docOk ⟨root.rootTag,
        root.children ++ [⟨strL "playcount", strL "1"⟩]⟩ = true :=
      docOk_append_elem root _ hdoc (by decide)
    obtain ⟨hl2, hgl2, hp2⟩ := newfile_parse declPlaycountLine _
      (pyStrip (rstripNl last)) (by decide) hdoc'
    have hres := add_playcount_result file root last hlen hgl hparse hroot hany
    rw [hres]
    exact ⟨hp2, hgl2⟩
  · intro hany
    rw [add_playcount_noop file root last hlen hgl hparse hroot hany]

/-- Witness for C10: both mutations evaluated on a concrete parsable
sidecar file. -/
theorem mutations_preserve_existing_witness :
    (add_tag_to_movie_nfo
        [strL "<movie>", strL "  <title>X</title>", strL "</movie>",
         strL " https://www.imdb.com/title/tt1 "] (strL "Oscar")).1 = true ∧
      (add_tag_to_movie_nfo
          [strL "<movie>", strL "  <title>X</title>", strL "</movie>",
           strL " https://www.imdb.com/title/tt1 "] (strL "Oscar")).2.getLast? =
        some (pyStrip (rstripNl (strL " https://www.imdb.com/title/tt1 "))) := by
  have h := (mutations_preserve_existing
    [strL "<movie>", strL "  <title>X</title>", strL "</movie>",
     strL " https://www.imdb.com/title/tt1 "]
    ⟨strL "movie", [⟨strL "title", strL "X"⟩]⟩
    (strL " https://www.imdb.com/title/tt1 ")
    (strL "Oscar")
    (by decide) (by decide) (by decide) (by decide) (by decide)).1
  exact ⟨h.1, h.2.2⟩

/-- One entry of the TMDb search response as `search_movie_tmdb` reads it
(src/script.py:114-121): optional catalog id (`.get("id")`), titles
defaulting to the empty string, and the release year — the year models
`int(release_date[:4]) if release_date else None`, i.e. the 4-digit year
prefix of the release date or `none` when the date is empty. -/
structure SearchResult where
  id : Option Int
  title : Line
  original_title : Line
  release_year : Option Int
deriving DecidableEq

/-- The strict acceptance test of the search loop (src/script.py:121): title
or original title equal under casefold, and, when a year was supplied, the
release year equals it exactly (Python `None == year` is false, so a result
without a release date never matches a supplied year). -/
def qualifies (title : Line) (year : Option Int) (r : SearchResult) : Bool :=
  (casefoldL r.title == casefoldL title ||
      casefoldL r.original_title == casefoldL title) &&
    (match year with
     | none => true
     | some y => r.release_year == some y)

/-- Shallow embedding of the result filtering of `search_movie_tmdb`
(src/script.py:106-125) on an obtained response: empty result list yields
`None`, otherwise the first strictly qualifying result, else `None`. -/
def search_movie_tmdb_results (title : Line) (year : Option Int)
    (results : List SearchResult) : Option SearchResult :=
  if results.isEmpty then none
  else results.find? (qualifies title year)

/-- A provider response: either a rate-limit signal (HTTP 429, modelled as
the `HTTPError` the except clause of src/script.py:99-104 handles) or a
result list. -/
inductive TmdbResp where
  | rate : TmdbResp
  | ok : List SearchResult → TmdbResp
deriving DecidableEq

/-- Fuel-indexed unfolding of the retry structure of `search_movie_tmdb`
(src/script.py:97-104): on a rate-limit signal the code waits and re-issues
the identical call (a recursive call with no attempt counter), on success
it filters the results.  The Python function carries no fuel — `none` here
means the recursion is still running after consuming the given number of
steps; the result type has no rate-limit-exceeded outcome because the code
defines none. -/
def search_movie_tmdb_fuel (o : Nat → TmdbResp) (title : Line)
    (year : Option Int) : Nat → Nat → Option (Option SearchResult)
  | 0, _ => none
  | fuel + 1, attempt =>
    match o attempt with
    | TmdbResp.rate => search_movie_tmdb_fuel o title year fuel (attempt + 1)
    | TmdbResp.ok results => some (search_movie_tmdb_results title year results)

/-- C2 (code bug): against a provider that answers every attempt with a
rate-limit signal, no amount of fuel makes the retry recursion of
`search_movie_tmdb` terminate — the code retries unconditionally, with no
maximum retry count and no RateLimitExceeded error (the claim requires a
hard ceiling surfacing such an error). -/
theorem rate_limit_retries_unbounded (title : Line) (year : Option Int) :
    ∀ fuel attempt,
      search_movie_tmdb_fuel (fun _ => TmdbResp.rate) title year fuel attempt =
        none := by
  intro fuel
  induction fuel with
  | zero => intro attempt; rfl
  | succ n ih => intro attempt; exact ih (attempt + 1)

/-- The full details record `get_movie_by_tmdb_id` returns
(src/script.py:128-145), as `find_tmdb_movie` and `__main__` consume it. -/
structure TmdbDetails where
  imdb_id : Option Line
  title : Line
  original_title : Line
  release_year : Option Int
deriving DecidableEq

/-- Python truthiness of an optional string (`not tmdb_movie.get("imdb_id")`
is true for a missing key and for the empty string). -/
def truthyStr : Option Line → Bool
  | none => false
  | some s => !s.isEmpty

/-- Shallow embedding of `find_tmdb_movie` (src/script.py:65-83) over an
oracle for the by-id details lookup: search strictly by title and year,
fail when the winning result has a falsy catalog id, fetch the details by
id (the HTTP call of `get_movie_by_tmdb_id` always returns its JSON body,
so the in-between `is None` check of line 75 never fires), and fail when
the details carry no truthy canonical identity id. -/
def find_tmdb_movie (results : List SearchResult) (getById : Int → TmdbDetails)
    (title : Line) (year : Int) : Option TmdbDetails :=
  match search_movie_tmdb_results title (some year) results with
  | none => none
  | some r =>
    match r.id with
    | none => none
    | some i =>
      if i == 0 then none
      else
        let d := getById i
        if truthyStr d.imdb_id then some d else none

/-- C6: resolution by title and year succeeds with exactly the details of
the first strictly qualifying search result — qualifying meaning title or
original title equal under casefold and release year equal to the supplied
year — whose catalog id is truthy and whose full details carry a truthy
canonical identity id; in every other situation (no qualifying result, or
unusable ids) the outcome is NotFound, never a plain first-result
fallback. -/
theorem find_tmdb_movie_strict (results : List SearchResult)
    (getById : Int → TmdbDetails) (title : Line) (year : Int) (d : TmdbDetails) :
    find_tmdb_movie results getById title year = some d ↔
      ∃ r i, results.find? (qualifies title (some year)) = some r ∧
        r.id = some i ∧ ¬i = 0 ∧ truthyStr (getById i).imdb_id = true ∧
        d = getById i := by
  unfold find_tmdb_movie search_movie_tmdb_results
  by_cases hemp : results.isEmpty = true
  · rw [if_pos hemp]
    have hnil : results = [] := by rwa [List.isEmpty_iff] at hemp
    subst hnil
    simp [List.find?]
  · rw [if_neg hemp]
    rcases hf : results.find? (qualifies title (some year)) with _ | r
    · simp
    · simp only
      rcases hid : r.id with _ | i
      · simp [hid]
      · by_cases hz : i = 0
        · subst hz
          simp [hid]
        · have hz' : (i == 0) = false := beq_false_of_ne hz
          simp only [hz', Bool.false_eq_true, if_false]
          by_cases ht : truthyStr (getById i).imdb_id = true
          · constructor
            · intro h
              simp only [ht, if_true] at h
              have hd : d = getById i := by
                injection h with h2
                exact h2.symm
              exact ⟨r, i, rfl, hid, hz, ht, hd⟩
            · rintro ⟨r2, i2, hr2, hid2, hz2, ht2, hd2⟩
              obtain rfl : r2 = r := by
                injection hr2 with h2
                exact h2.symm
              rw [hid] at hid2
              obtain rfl : i2 = i := by
                injection hid2 with h2
                exact h2.symm
              subst hd2
              simp [ht]
          · have ht2 : truthyStr (getById i).imdb_id = false := by
              cases htt : truthyStr (getById i).imdb_id with
              | false => rfl
              | true => exact absurd htt ht
            simp [ht2, hid]
